import Mathlib

/-!
# Verification of the LauraDB Python client

Shallow embedding of `lauradb/query.py`, `lauradb/aggregation.py`,
`lauradb/collection.py` and `lauradb/client.py` (expression builders,
update composer, request/response classification and result unwrapping),
together with proofs about the embedded definitions.

Python values flowing through the client are JSON-like; they are modelled
by the inductive type `JVal`.  Python `dict`s are modelled as
insertion-ordered association lists with unique keys, with assignment
(`d[k] = v`), `d.update(other)` and `d.get(k, default)` embedded as
`aset`, `aupdate` and lookup-with-default on such lists.
-/

set_option autoImplicit false

/-- JSON-like Python value (None, bool, int, str, list, dict).
Floats are not needed by any embedded operation and are omitted. -/
inductive JVal where
  | null
  | bool (b : Bool)
  | int (n : Int)
  | str (s : String)
  | arr (xs : List JVal)
  | obj (m : List (String × JVal))
  deriving Repr

namespace PyDict

variable {α : Type}

/-- First-match lookup in an association list (`k in d` / `d[k]`).
Python dicts never hold duplicate keys, so first match is the match. -/
def alookup : List (String × α) → String → Option α
  | [], _ => none
  | (k, v) :: rest, key => if k = key then some v else alookup rest key

/-- Python dict assignment `d[key] = val`: replace in place if the key is
present (keeping its position), else append at the end. -/
def aset : List (String × α) → String → α → List (String × α)
  | [], key, val => [(key, val)]
  | (k, v) :: rest, key, val =>
      if k = key then (k, val) :: rest else (k, v) :: aset rest key val

/-- Python `d.update(other)`: assign every entry of `other` in order. -/
def aupdate (d other : List (String × α)) : List (String × α) :=
  other.foldl (fun acc kv => aset acc kv.1 kv.2) d

/-- The keys of a dict are pairwise distinct (true of every Python dict). -/
def keysND (d : List (String × α)) : Prop := (d.map Prod.fst).Nodup

instance (d : List (String × α)) : Decidable (keysND d) := by
  unfold keysND; infer_instance

end PyDict

open PyDict

/-- A Python dict of field name to value, as used below an update operator
or inside an aggregation stage. -/
abbrev FieldMap (β : Type) : Type := List (String × β)

/-- An update document: a Python dict from update-operator name (`$set`,
`$inc`, ...) to a field map, as produced by the `UpdateBuilder`
constructors.  The value type is kept generic so that the same composer
can be read both over plain JSON values and over heap references. -/
abbrev UpdateDoc (β : Type) : Type := List (String × FieldMap β)

namespace Query

/-- Embedding of `Query.eq`: `{field: {"$eq": value}}`. -/
def eq (field : String) (value : JVal) : JVal := .obj [(field, .obj [("$eq", value)])]

/-- Embedding of `Query.gte`: `{field: {"$gte": value}}`. -/
def gte (field : String) (value : JVal) : JVal := .obj [(field, .obj [("$gte", value)])]

/-- Embedding of `Query.in_`: `{field: {"$in": values}}`.  The Python source
annotates `values : List[Any]` but performs no check; the argument is
embedded verbatim, whatever it is. -/
def in_ (field : String) (values : JVal) : JVal := .obj [(field, .obj [("$in", values)])]

/-- Embedding of `Query.nin`: `{field: {"$nin": values}}` (no validation). -/
def nin (field : String) (values : JVal) : JVal := .obj [(field, .obj [("$nin", values)])]

/-- Embedding of `Query.and_`: `{"$and": [conditions...]}`. -/
def and_ (conditions : List JVal) : JVal := .obj [("$and", .arr conditions)]

/-- Embedding of `Query.not_`: `{"$not": condition}`.  The single-operand
arity is the Python function signature; the body performs no validation. -/
def not_ (condition : JVal) : JVal := .obj [("$not", condition)]

/-- Embedding of `Query.all_`: `{field: {"$all": values}}` (no validation). -/
def all_ (field : String) (values : JVal) : JVal := .obj [(field, .obj [("$all", values)])]

/-- Embedding of `Query.size`: `{field: {"$size": size}}`.  The Python
source annotates `size : int` but performs no check; the argument is
embedded verbatim, whatever it is. -/
def size (field : String) (sz : JVal) : JVal := .obj [(field, .obj [("$size", sz)])]

end Query

namespace UpdateBuilder

/-- Embedding of `UpdateBuilder.set`: `{"$set": {field: value}}`. -/
def set (field : String) (value : JVal) : UpdateDoc JVal := [("$set", [(field, value)])]

/-- Embedding of `UpdateBuilder.unset`: `{"$unset": {field: ""}}`. -/
def unset (field : String) : UpdateDoc JVal := [("$unset", [(field, .str "")])]

/-- Embedding of `UpdateBuilder.inc`: `{"$inc": {field: amount}}`. -/
def inc (field : String) (amount : JVal) : UpdateDoc JVal := [("$inc", [(field, amount)])]

/-- Embedding of `UpdateBuilder.push`: `{"$push": {field: value}}`. -/
def push (field : String) (value : JVal) : UpdateDoc JVal := [("$push", [(field, value)])]

/-- Embedding of `UpdateBuilder.combine`:

    result = {}
    for update in updates:
        for operator, fields in update.items():
            if operator not in result:
                result[operator] = {}
            result[operator].update(fields)
    return result

Assigning `{}` and then updating it in place equals assigning the merge of
the current sub-dict (empty when the operator is new) with `fields`; that
single loop-body step is named `combineStep`. -/
def combineStep {β : Type} (result : UpdateDoc β) (opf : String × FieldMap β) : UpdateDoc β :=
  aset result opf.1 (aupdate ((alookup result opf.1).getD []) opf.2)

/-- Embedding of `UpdateBuilder.combine` (see `combineStep` for the loop
body):

    result = {}
    for update in updates:
        for operator, fields in update.items():
            if operator not in result:
                result[operator] = {}
            result[operator].update(fields)
    return result
-/
def combine {β : Type} (updates : List (UpdateDoc β)) : UpdateDoc β :=
  updates.foldl (fun result update => update.foldl combineStep result) []

/-- Helper for `mergeLWW`: a field of the current map keeps its position
and takes the new map's value for its key when there is one. -/
def override {β : Type} (new : FieldMap β) (kv : String × β) : String × β :=
  (kv.1, (alookup new kv.1).getD kv.2)

/-- Helper for `mergeLWW`: a field of the new map is genuinely new when
the current map has no value for its key. -/
def freshIn {β : Type} (cur : FieldMap β) (kv : String × β) : Bool :=
  (alookup cur kv.1).isNone

/-- Modelled from the spec (section 4.2), for comparison with `combine`:
merge the new field map into the current one last-writer-wins per field —
every current field keeps its position, taking the new value when the new
map has one, and the genuinely new fields are appended in order. -/
def mergeLWW {β : Type} (cur new : FieldMap β) : FieldMap β :=
  cur.map (override new) ++ new.filter (freshIn cur)

/-- Modelled from the spec (section 4.2), one operator key of one input:
merge its field-to-value sub-mapping into the result's sub-mapping for
that operator key, the operator accumulating at the end when new. -/
def specStep {β : Type} (result : UpdateDoc β) (opf : String × FieldMap β) : UpdateDoc β :=
  match alookup result opf.1 with
  | some cur => aset result opf.1 (mergeLWW cur opf.2)
  | none => result ++ [(opf.1, mergeLWW [] opf.2)]

/-- Modelled from the spec (section 4.2): "initialize an empty result
mapping; for each input update, for each top-level operator key, merge its
field-to-value sub-mapping into the result's sub-mapping for that operator
key (last-writer-wins per field, operators accumulate across inputs)". -/
def combineSpec {β : Type} (updates : List (UpdateDoc β)) : UpdateDoc β :=
  updates.foldl (fun result update => update.foldl specStep result) []

end UpdateBuilder

namespace Aggregation

/-- Embedding of `Aggregation.match` (named `matchStage` because `match` is
a Lean keyword): `{"$match": filter}`. -/
def matchStage (filter : JVal) : JVal := .obj [("$match", filter)]

/-- Embedding of `Aggregation.group`:

    stage = {"_id": group_by}
    stage.update(accumulators)
    return {"$group": stage}
-/
def group (group_by : JVal) (accumulators : List (String × JVal)) : JVal :=
  .obj [("$group", .obj (aupdate [("_id", group_by)] accumulators))]

/-- Embedding of `Aggregation.project`: `{"$project": fields}`. -/
def project (fields : JVal) : JVal := .obj [("$project", fields)]

/-- Embedding of `Aggregation.sort`: `{"$sort": sort_spec}`. -/
def sort (sort_spec : JVal) : JVal := .obj [("$sort", sort_spec)]

/-- Embedding of `Aggregation.limit`: `{"$limit": count}`. -/
def limit (count : JVal) : JVal := .obj [("$limit", count)]

/-- Embedding of `Aggregation.skip`: `{"$skip": count}`. -/
def skip (count : JVal) : JVal := .obj [("$skip", count)]

/-- Embedding of `Aggregation.sum`: `{"$sum": expression}`. -/
def sum (expression : JVal) : JVal := .obj [("$sum", expression)]

/-- Embedding of `Aggregation.avg`: `{"$avg": field}`. -/
def avg (field : JVal) : JVal := .obj [("$avg", field)]

/-- Embedding of `Aggregation.count`: `{"$count": {}}` — no arguments. -/
def count : JVal := .obj [("$count", .obj [])]

end Aggregation

/-- Python truthiness of a JSON-like value (`bool(v)`), as used by
`if projection:`, `filter or {}`, `data.get("ok", False)` tests and the
`or`-chains in the source. -/
def truthy : JVal → Bool
  | .null => false
  | .bool b => b
  | .int n => n != 0
  | .str s => s != ""
  | .arr xs => !xs.isEmpty
  | .obj m => !m.isEmpty

/-- Python `v is None` (identity with the `None` singleton). -/
def isNone : JVal → Bool
  | .null => true
  | _ => false

/-- Python type name of a value, as it appears in error messages. -/
def pyTypeName : JVal → String
  | .null => "NoneType"
  | .bool _ => "bool"
  | .int _ => "int"
  | .str _ => "str"
  | .arr _ => "list"
  | .obj _ => "dict"

mutual

/-- Python `repr` of a JSON-like value (string escaping inside nested
strings is not reproduced; no claim depends on it). -/
def pyRepr : JVal → String
  | .null => "None"
  | .bool true => "True"
  | .bool false => "False"
  | .int n => toString n
  | .str s => "\x27" ++ s ++ "\x27"
  | .arr xs => "[" ++ pyReprList xs ++ "]"
  | .obj m => "\x7b" ++ pyReprObj m ++ "\x7d"

/-- Comma-separated `repr` of list elements. -/
def pyReprList : List JVal → String
  | [] => ""
  | [x] => pyRepr x
  | x :: y :: xs => pyRepr x ++ ", " ++ pyReprList (y :: xs)

/-- Comma-separated `repr` of dict entries. -/
def pyReprObj : List (String × JVal) → String
  | [] => ""
  | [(k, v)] => "\x27" ++ k ++ "\x27: " ++ pyRepr v
  | (k, v) :: y :: xs => "\x27" ++ k ++ "\x27: " ++ pyRepr v ++ ", " ++ pyReprObj (y :: xs)

end

/-- Python `str` of a value, as used by f-string interpolation. -/
def pyStr : JVal → String
  | .str s => s
  | v => pyRepr v

/-- A Python exception escaping from the client code.  `runtimeError` is
the transport-level error raised by `Client._request`'s `except` clause;
`valueError` is the API-level error it raises on an `ok`-false body;
`attributeError` models calling `.get` on a non-dict value. -/
inductive PyError where
  | runtimeError (msg : String)
  | valueError (msg : String)
  | attributeError (msg : String)
  deriving Repr, DecidableEq

/-- Embedding of `data.get(key, default)`: total on dicts, an
`AttributeError` on anything else. -/
def pyGet (v : JVal) (key : String) (default : JVal) : Except PyError JVal :=
  match v with
  | .obj m => .ok ((alookup m key).getD default)
  | _ => .error (.attributeError
      ("\x27" ++ pyTypeName v ++ "\x27 object has no attribute \x27get\x27"))

/-- Result of `response.json()`: `malformed` models the
`requests.exceptions.JSONDecodeError` (a `RequestException`) raised on a
non-JSON body; `parsed` carries the decoded value. -/
inductive BodyParse where
  | malformed (msg : String)
  | parsed (data : JVal)

/-- What the HTTP layer (`requests`) hands back for one attempt:
either the send itself raises a `RequestException` (connection failure,
timeout), or a response arrives carrying a status code, the message an
`HTTPError` for that status would carry, and a body that either fails or
succeeds JSON parsing. -/
inductive HttpOutcome where
  | failure (msg : String)
  | response (status : Nat) (statusMsg : String) (body : BodyParse)

/-- Message selection for the API-level error, from
`data.get("message") or data.get("error") or "API request failed"`:
Python `or` takes the first truthy value. -/
def apiErrorMessage (m : List (String × JVal)) : String :=
  let mv := (alookup m "message").getD .null
  if truthy mv then pyStr mv
  else
    let ev := (alookup m "error").getD .null
    if truthy ev then pyStr ev
    else "API request failed"

namespace Client

/-- Embedding of `Client._request` as a function of the HTTP layer's
outcome for the single attempt:

  * a `RequestException` from `session.request` (connection failure,
    timeout) is caught and re-raised as
    `RuntimeError("HTTP request failed: ...")`;
  * `response.raise_for_status()` raises `HTTPError` — also a
    `RequestException`, so also re-raised as the same `RuntimeError` —
    exactly when `400 <= status < 600`;
  * `response.json()` on an unparsable body raises `JSONDecodeError`, again
    a `RequestException`, hence the same `RuntimeError`;
  * on a parsed dict body, a falsy-or-absent `ok` triggers
    `ValueError("LauraDB API error: ...")`, which is not a
    `RequestException` and escapes uncaught; a truthy `ok` returns the
    body;
  * on a parsed non-dict body, `data.get("ok", False)` raises
    `AttributeError`, which is also not caught. -/
def request (o : HttpOutcome) : Except PyError JVal :=
  match o with
  | .failure msg => .error (.runtimeError ("HTTP request failed: " ++ msg))
  | .response status statusMsg body =>
      if 400 ≤ status ∧ status < 600 then
        .error (.runtimeError ("HTTP request failed: " ++ statusMsg))
      else
        match body with
        | .malformed msg => .error (.runtimeError ("HTTP request failed: " ++ msg))
        | .parsed data =>
            match data with
            | .obj m =>
                if truthy ((alookup m "ok").getD (.bool false)) then .ok (.obj m)
                else .error (.valueError ("LauraDB API error: " ++ apiErrorMessage m))
            | _ => .error (.attributeError
                ("\x27" ++ pyTypeName data ++ "\x27 object has no attribute \x27get\x27"))

/-- Embedding of `Client.ping`: call `_request("GET", "/ping")`, return
`response.get("ok", False)`; any exception whatsoever is caught by the
bare `except Exception` and turned into `False`. -/
def ping (o : HttpOutcome) : JVal :=
  match request o with
  | .ok (.obj m) => (alookup m "ok").getD (.bool false)
  | .ok _ => .bool false
  | .error _ => .bool false

end Client

namespace Collection

/-- Embedding of the request-body construction in `Collection.find`.
Arguments model the Python parameters, each defaulting to `None`
(`JVal.null`); `filter or {}` takes the filter when truthy, else `{}`;
`projection` and `sort` are added only when truthy, `skip` and `limit`
only when not `None`. -/
def findBody (filter projection sortSpec skip limit : JVal) : List (String × JVal) :=
  let body := [("filter", if truthy filter then filter else .obj [])]
  let body := if truthy projection then aset body "projection" projection else body
  let body := if truthy sortSpec then aset body "sort" sortSpec else body
  let body := if !isNone skip then aset body "skip" skip else body
  let body := if !isNone limit then aset body "limit" limit else body
  body

/-- Embedding of the request-body construction in `Collection.aggregate`:
`body={"pipeline": pipeline}`, the stage list passed through as is. -/
def aggregateBody (pipeline : List JVal) : List (String × JVal) :=
  [("pipeline", .arr pipeline)]

/-- Embedding of `Collection.count`: `_request` then
`response.get("result", {}).get("count", 0)`. -/
def count (o : HttpOutcome) : Except PyError JVal := do
  let response ← Client.request o
  let r ← pyGet response "result" (.obj [])
  pyGet r "count" (.int 0)

/-- Embedding of the unwrapping in `Collection.update_many`:
`response.get("result", {}).get("modified", 0)`. -/
def updateMany (o : HttpOutcome) : Except PyError JVal := do
  let response ← Client.request o
  let r ← pyGet response "result" (.obj [])
  pyGet r "modified" (.int 0)

/-- Embedding of the unwrapping in `Collection.find`:
`response.get("result", {}).get("documents", [])`. -/
def find (o : HttpOutcome) : Except PyError JVal := do
  let response ← Client.request o
  let r ← pyGet response "result" (.obj [])
  pyGet r "documents" (.arr [])

/-- Embedding of the unwrapping in `Collection.insert_one`:
`response.get("result", {}).get("id", "")`. -/
def insertOne (o : HttpOutcome) : Except PyError JVal := do
  let response ← Client.request o
  let r ← pyGet response "result" (.obj [])
  pyGet r "id" (.str "")

end Collection

/-- A value slot of a Python dict on the heap: a reference to another dict
object, or an immediate non-dict value.  This refines the pure model with
Python's reference semantics, for the frame properties of `combine`. -/
inductive PVal where
  | ref (a : Nat)
  | imm (v : JVal)
  deriving Repr

/-- Contents of one dict object on the heap. -/
abbrev PDict : Type := List (String × PVal)

/-- Lookup in the heap store by address (first match). -/
def hlookup : List (Nat × PDict) → Nat → Option PDict
  | [], _ => none
  | (a, d) :: rest, addr => if a = addr then some d else hlookup rest addr

/-- In-place update of the heap store at an address. -/
def hset : List (Nat × PDict) → Nat → PDict → List (Nat × PDict)
  | [], addr, d => [(addr, d)]
  | (a, e) :: rest, addr, d =>
      if a = addr then (a, d) :: rest else (a, e) :: hset rest addr d

/-- A heap of Python dict objects: a store from addresses to contents and
the next fresh address. -/
structure Heap where
  store : List (Nat × PDict)
  next : Nat

namespace Heap

/-- Read the dict object at an address (empty for a dangling address). -/
def read (h : Heap) (a : Nat) : PDict := (hlookup h.store a).getD []

/-- Overwrite the dict object at an address. -/
def write (h : Heap) (a : Nat) (d : PDict) : Heap := ⟨hset h.store a d, h.next⟩

/-- Allocate a fresh dict object (`{}` or a literal), returning its
address. -/
def alloc (h : Heap) (d : PDict) : Heap × Nat := (⟨(h.next, d) :: h.store, h.next + 1⟩, h.next)

end Heap

/-- One-level dereference of a `fields` value during the combine loop:
`result[operator].update(fields)` reads the entries of the dict object
`fields` refers to.  A non-dict (`imm`) value would make Python raise; the
well-formedness hypothesis of the frame theorem excludes it, and the
model reads no entries there. -/
def fieldEntries (h : Heap) : PVal → PDict
  | .ref a => h.read a
  | .imm _ => []

/-- Heap-level embedding of the inner loop of `UpdateBuilder.combine`
over one update document's (operator, fields) items, mutating the result
dict at address `r` in place:

    for operator, fields in update.items():
        if operator not in result:
            result[operator] = {}
        result[operator].update(fields)

The `some (.imm _)` branch cannot arise for the result dict this function
builds (its values are always references, see `DictRep`); Python would raise
there, and the model leaves the heap unchanged. -/
def combineInner (r : Nat) : Heap → PDict → Heap
  | h, [] => h
  | h, (op, fv) :: rest =>
      match alookup (h.read r) op with
      | some (.ref sub) =>
          combineInner r (h.write sub (aupdate (h.read sub) (fieldEntries h fv))) rest
      | some (.imm _) => combineInner r h rest
      | none =>
          let af := h.alloc []
          let h2 := af.1.write r (aset (af.1.read r) op (.ref af.2))
          combineInner r (h2.write af.2 (aupdate (h2.read af.2) (fieldEntries h2 fv))) rest

/-- Heap-level embedding of `UpdateBuilder.combine` with Python reference
semantics: allocate `result = {}`, run the loop over each update document
(read from the heap at its turn), and return the final heap together with
the result's address. -/
def combineHeap (h : Heap) (updates : List Nat) : Heap × Nat :=
  let ar := h.alloc []
  (updates.foldl (fun hh u => combineInner ar.2 hh (hh.read u)) ar.1, ar.2)

/-- The pure value of an update document stored at an address: its
operator keys paired with the one-level-dereferenced contents of their
field dicts. -/
def readUpdateDoc (h : Heap) (a : Nat) : UpdateDoc PVal :=
  (h.read a).map (fun kv => (kv.1, fieldEntries h kv.2))

/-- An update-doc entry value is a reference to an object below `n` (true
of every well-formed input update document in a heap with `next = n`). -/
def refBelow (n : Nat) : PVal → Bool
  | .ref b => decide (b < n)
  | .imm _ => false

/-- The result dict `es` (its entries on heap `h`) represents the pure
update document `ps`: same keys in the same order, every value a
reference, the reference addresses strictly increasing within the open
interval `(lo, hi)`, and each referenced dict object holding the
corresponding pure field map. -/
inductive DictRep (h : Heap) : PDict → UpdateDoc PVal → Nat → Nat → Prop where
  | nil (lo hi : Nat) : DictRep h [] [] lo hi
  | cons (k : String) (f lo hi : Nat) (fm : FieldMap PVal) (es : PDict) (ps : UpdateDoc PVal) :
      lo < f → f < hi → h.read f = fm → DictRep h es ps f hi →
      DictRep h ((k, PVal.ref f) :: es) ((k, fm) :: ps) lo hi

/-- A tiny concrete heap for the witness of `combine_is_pure`: two field
dicts at addresses 0 and 1 and one update document at address 2
referencing them. -/
def demoHeap : Heap :=
  ⟨[(0, [("a", .imm (.int 1))]), (1, [("b", .imm (.int 2))]),
    (2, [("$set", .ref 0), ("$inc", .ref 1)])], 3⟩

namespace PyDict

variable {α : Type}

@[simp] theorem alookup_nil (key : String) : alookup ([] : List (String × α)) key = none := rfl

theorem alookup_aset_self (d : List (String × α)) (key : String) (val : α) :
    alookup (aset d key val) key = some val := by
  induction d with
  | nil => simp [aset, alookup]
  | cons kv rest ih =>
      obtain ⟨k, v⟩ := kv
      by_cases hk : k = key
      · simp [aset, hk, alookup]
      · simp [aset, hk, alookup, ih]

theorem alookup_aset_ne (d : List (String × α)) (key key' : String) (val : α)
    (h : key' ≠ key) : alookup (aset d key val) key' = alookup d key' := by
  induction d with
  | nil => simp [aset, alookup, Ne.symm h]
  | cons kv rest ih =>
      obtain ⟨k, v⟩ := kv
      by_cases hk : k = key
      · subst hk
        simp [aset, alookup, Ne.symm h]
      · simp [aset, hk, alookup, ih]

theorem aset_of_not_mem (d : List (String × α)) (key : String) (val : α)
    (h : alookup d key = none) : aset d key val = d ++ [(key, val)] := by
  induction d with
  | nil => simp [aset]
  | cons kv rest ih =>
      obtain ⟨k, v⟩ := kv
      by_cases hk : k = key
      · simp [alookup, hk] at h
      · simp [alookup, hk] at h
        simp [aset, hk, ih h]

theorem alookup_eq_none_iff (d : List (String × α)) (key : String) :
    alookup d key = none ↔ key ∉ d.map Prod.fst := by
  induction d with
  | nil => simp
  | cons kv rest ih =>
      obtain ⟨k, v⟩ := kv
      by_cases hk : k = key
      · subst hk; simp [alookup]
      · simp only [alookup, if_neg hk, List.map_cons, List.mem_cons, ih]
        constructor
        · intro h hor
          exact hor.elim (fun e => hk e.symm) h
        · intro h hm
          exact h (Or.inr hm)

theorem alookup_aupdate_of_none (d other : List (String × α)) (key : String)
    (h : alookup other key = none) : alookup (aupdate d other) key = alookup d key := by
  induction other generalizing d with
  | nil => rfl
  | cons kv rest ih =>
      obtain ⟨k, w⟩ := kv
      have hk : ¬ k = key := by intro e; simp [alookup, e] at h
      have hr : alookup rest key = none := by simpa [alookup, hk] using h
      have step : aupdate d ((k, w) :: rest) = aupdate (aset d k w) rest := rfl
      rw [step, ih _ hr, alookup_aset_ne _ _ _ _ (fun e => hk e.symm)]

theorem alookup_aupdate_of_some (d other : List (String × α)) (key : String) (v : α)
    (hnd : keysND other) (h : alookup other key = some v) :
    alookup (aupdate d other) key = some v := by
  induction other generalizing d with
  | nil => simp [alookup] at h
  | cons kv rest ih =>
      obtain ⟨k, w⟩ := kv
      obtain ⟨hknot, hnd'⟩ := List.nodup_cons.mp hnd
      by_cases hk : k = key
      · subst hk
        have hw : w = v := by simpa [alookup] using h
        subst hw
        have hr : alookup rest k = none := (alookup_eq_none_iff rest k).mpr hknot
        have step : aupdate d ((k, w) :: rest) = aupdate (aset d k w) rest := rfl
        rw [step, alookup_aupdate_of_none _ _ _ hr, alookup_aset_self]
      · have hr : alookup rest key = some v := by simpa [alookup, hk] using h
        exact ih (aset d k w) hnd' hr

@[simp] theorem alookup_cons (k : String) (v : α) (rest : List (String × α)) (key : String) :
    alookup ((k, v) :: rest) key = if k = key then some v else alookup rest key := rfl

@[simp] theorem aset_cons (k : String) (v : α) (rest : List (String × α)) (key : String) (val : α) :
    aset ((k, v) :: rest) key val =
      if k = key then (k, val) :: rest else (k, v) :: aset rest key val := rfl

theorem keysND_nil : keysND ([] : List (String × α)) := List.nodup_nil

theorem alookup_mem (d : List (String × α)) (key : String) (v : α)
    (h : alookup d key = some v) : (key, v) ∈ d := by
  induction d with
  | nil => simp [alookup] at h
  | cons kv rest ih =>
      obtain ⟨k, w⟩ := kv
      rw [alookup_cons] at h
      by_cases hk : k = key
      · rw [if_pos hk] at h
        subst hk
        obtain rfl : w = v := Option.some.inj h
        exact List.mem_cons_self _ _
      · rw [if_neg hk] at h
        exact List.mem_cons_of_mem _ (ih h)

theorem map_fst_aset_of_some (d : List (String × α)) (key : String) (w val : α)
    (h : alookup d key = some w) :
    (aset d key val).map Prod.fst = d.map Prod.fst := by
  induction d with
  | nil => simp [alookup] at h
  | cons kv rest ih =>
      obtain ⟨k, v⟩ := kv
      rw [alookup_cons] at h
      by_cases hk : k = key
      · rw [aset_cons, if_pos hk, List.map_cons, List.map_cons]
      · rw [if_neg hk] at h
        rw [aset_cons, if_neg hk, List.map_cons, List.map_cons, ih h]

theorem keysND_aset (d : List (String × α)) (key : String) (val : α)
    (h : keysND d) : keysND (aset d key val) := by
  unfold keysND at h ⊢
  cases hc : alookup d key with
  | none =>
      rw [aset_of_not_mem d key val hc, List.map_append]
      refine List.Nodup.append h (List.nodup_singleton key) ?_
      intro a ha hb
      simp only [List.map_cons, List.map_nil, List.mem_singleton] at hb
      subst hb
      exact (alookup_eq_none_iff d a).mp hc ha
  | some w =>
      rw [map_fst_aset_of_some d key w val hc]
      exact h

theorem mem_aset (d : List (String × α)) (key : String) (val : α)
    (x : String × α) (h : x ∈ aset d key val) : x ∈ d ∨ x = (key, val) := by
  induction d with
  | nil =>
      simp [aset] at h
      exact Or.inr h
  | cons kv rest ih =>
      obtain ⟨k, w⟩ := kv
      rw [aset_cons] at h
      by_cases hk : k = key
      · rw [if_pos hk] at h
        rcases List.mem_cons.mp h with h1 | h2
        · exact Or.inr (by rw [h1, hk])
        · exact Or.inl (List.mem_cons_of_mem _ h2)
      · rw [if_neg hk] at h
        rcases List.mem_cons.mp h with h1 | h2
        · exact Or.inl (by rw [h1]; exact List.mem_cons_self _ _)
        · rcases ih h2 with h3 | h4
          · exact Or.inl (List.mem_cons_of_mem _ h3)
          · exact Or.inr h4

theorem alookup_append_left (d₁ d₂ : List (String × α)) (key : String) (v : α)
    (h : alookup d₁ key = some v) : alookup (d₁ ++ d₂) key = some v := by
  induction d₁ with
  | nil => simp [alookup] at h
  | cons kv rest ih =>
      obtain ⟨k, w⟩ := kv
      rw [alookup_cons] at h
      rw [List.cons_append, alookup_cons]
      by_cases hk : k = key
      · rw [if_pos hk] at h ⊢
        exact h
      · rw [if_neg hk] at h ⊢
        exact ih h

theorem alookup_append_of_none (d₁ d₂ : List (String × α)) (key : String)
    (h : alookup d₁ key = none) : alookup (d₁ ++ d₂) key = alookup d₂ key := by
  induction d₁ with
  | nil => rfl
  | cons kv rest ih =>
      obtain ⟨k, w⟩ := kv
      rw [alookup_cons] at h
      by_cases hk : k = key
      · rw [if_pos hk] at h
        exact absurd h (by simp)
      · rw [if_neg hk] at h
        rw [List.cons_append, alookup_cons, if_neg hk]
        exact ih h

theorem keysND_aupdate (d other : List (String × α)) (h : keysND d) :
    keysND (aupdate d other) := by
  induction other generalizing d with
  | nil => exact h
  | cons kv rest ih =>
      have step : aupdate d (kv :: rest) = aupdate (aset d kv.1 kv.2) rest := rfl
      rw [step]
      exact ih (aset d kv.1 kv.2) (keysND_aset _ _ _ h)

theorem aset_eq_map_of_some (d : List (String × α)) (key : String) (w val : α)
    (hmem : alookup d key = some w) (hnd : keysND d) :
    aset d key val = d.map (fun kv => if kv.1 = key then (key, val) else kv) := by
  induction d with
  | nil => simp [alookup] at hmem
  | cons kv rest ih =>
      obtain ⟨k, v⟩ := kv
      obtain ⟨hknot, hnd'⟩ := List.nodup_cons.mp hnd
      rw [alookup_cons] at hmem
      by_cases hk : k = key
      · subst hk
        rw [aset_cons, if_pos rfl, List.map_cons]
        have hhead : (if ((k, v) : String × α).1 = k then (k, val) else (k, v)) = (k, val) := by
          simp
        rw [hhead]
        congr 1
        have htail : rest.map (fun kv => if kv.1 = k then (k, val) else kv) = rest :=
          calc rest.map (fun kv => if kv.1 = k then (k, val) else kv)
              = rest.map id := List.map_congr_left (fun p hp => by
                  have hne : p.1 ≠ k := fun e => hknot (List.mem_map.mpr ⟨p, hp, e⟩)
                  simp [hne])
            _ = rest := List.map_id rest
        exact htail.symm
      · rw [if_neg hk] at hmem
        rw [aset_cons, if_neg hk, List.map_cons]
        have hhead : (if ((k, v) : String × α).1 = key then (key, val) else (k, v)) = (k, v) := by
          simp [hk]
        rw [hhead]
        congr 1
        exact ih hmem hnd'

end PyDict

namespace Heap

@[simp] theorem write_next (h : Heap) (a : Nat) (d : PDict) : (h.write a d).next = h.next := rfl

theorem read_write_self (h : Heap) (a : Nat) (d : PDict) : (h.write a d).read a = d := by
  show (hlookup (hset h.store a d) a).getD [] = d
  induction h.store with
  | nil => simp [hset, hlookup]
  | cons ae rest ih =>
      obtain ⟨a', e⟩ := ae
      by_cases ha : a' = a
      · simp [hset, ha, hlookup]
      · simp [hset, ha, hlookup, ih]

theorem read_write_ne (h : Heap) (a b : Nat) (d : PDict) (hab : a ≠ b) :
    (h.write a d).read b = h.read b := by
  show (hlookup (hset h.store a d) b).getD [] = (hlookup h.store b).getD []
  induction h.store with
  | nil => simp [hset, hlookup, hab]
  | cons ae rest ih =>
      obtain ⟨a', e⟩ := ae
      by_cases ha : a' = a
      · subst ha
        simp [hset, hlookup, hab]
      · by_cases hb : a' = b
        · subst hb
          simp [hset, hlookup, ha]
        · simp [hset, ha, hlookup, hb, ih]

theorem read_alloc_self (h : Heap) (d : PDict) : (h.alloc d).1.read (h.alloc d).2 = d := by
  show (hlookup ((h.next, d) :: h.store) h.next).getD [] = d
  simp [hlookup]

theorem read_alloc_ne (h : Heap) (d : PDict) (b : Nat) (hb : b ≠ h.next) :
    (h.alloc d).1.read b = h.read b := by
  show (hlookup ((h.next, d) :: h.store) b).getD [] = (hlookup h.store b).getD []
  simp [hlookup, Ne.symm hb]

@[simp] theorem alloc_next (h : Heap) (d : PDict) : (h.alloc d).1.next = h.next + 1 := rfl

@[simp] theorem alloc_addr (h : Heap) (d : PDict) : (h.alloc d).2 = h.next := rfl

end Heap

namespace UpdateBuilder

theorem mergeLWW_aset {β : Type} (cur rest : FieldMap β) (k : String) (v : β)
    (hrest : alookup rest k = none) (hcur : keysND cur) :
    mergeLWW (aset cur k v) rest = mergeLWW cur ((k, v) :: rest) := by
  have hkfresh : ∀ p : String × β, p ∈ rest → ¬ p.1 = k := fun p hp e =>
    (alookup_eq_none_iff rest k).mp hrest (List.mem_map.mpr ⟨p, hp, e⟩)
  have hoverride : ∀ p : String × β, ¬ p.1 = k →
      override ((k, v) :: rest) p = override rest p := by
    intro p hne
    unfold override
    rw [alookup_cons, if_neg (fun e => hne e.symm)]
  cases hmem : alookup cur k with
  | none =>
      have hknotcur : k ∉ cur.map Prod.fst := (alookup_eq_none_iff cur k).mp hmem
      rw [aset_of_not_mem cur k v hmem]
      unfold mergeLWW
      rw [List.map_append]
      have hsingle : ([(k, v)] : FieldMap β).map (override rest) = [(k, v)] := by
        simp [override, hrest]
      rw [hsingle]
      have hmap : cur.map (override rest) = cur.map (override ((k, v) :: rest)) :=
        List.map_congr_left (fun p hp => by
          have hne : ¬ p.1 = k := fun e => hknotcur (List.mem_map.mpr ⟨p, hp, e⟩)
          exact (hoverride p hne).symm)
      rw [hmap]
      have hfilter : rest.filter (freshIn (cur ++ [(k, v)])) = rest.filter (freshIn cur) :=
        List.filter_congr (fun p hp => by
          have hne : ¬ p.1 = k := hkfresh p hp
          unfold freshIn
          cases hcp : alookup cur p.1 with
          | some w => rw [alookup_append_left _ _ _ _ hcp]
          | none =>
              rw [alookup_append_of_none _ _ _ hcp, alookup_cons,
                if_neg (fun e => hne e.symm), alookup_nil])
      rw [hfilter]
      have hconsfilter : ((k, v) :: rest).filter (freshIn cur)
          = (k, v) :: rest.filter (freshIn cur) := by
        rw [List.filter_cons]
        simp [freshIn, hmem]
      rw [hconsfilter, List.append_assoc]
      rfl
  | some w =>
      rw [aset_eq_map_of_some cur k w v hmem hcur]
      unfold mergeLWW
      rw [List.map_map]
      have hmap : cur.map (override rest ∘ fun kv => if kv.1 = k then (k, v) else kv)
          = cur.map (override ((k, v) :: rest)) :=
        List.map_congr_left (fun p hp => by
          by_cases hpk : p.1 = k
          · simp [Function.comp, hpk, override, hrest]
          · have hkp : ¬ k = p.1 := fun e => hpk e.symm
            simp [Function.comp, hpk, override, hkp])
      rw [hmap]
      have hfst : (cur.map fun kv => if kv.1 = k then (k, v) else kv).map Prod.fst
          = cur.map Prod.fst := by
        rw [List.map_map]
        exact List.map_congr_left (fun q hq => by
          by_cases hqk : q.1 = k
          · simp [Function.comp, hqk]
          · simp [Function.comp, hqk])
      have hkeys : ∀ p : String × β, p ∈ rest →
          freshIn (cur.map fun kv => if kv.1 = k then (k, v) else kv) p = freshIn cur p := by
        intro p hp
        unfold freshIn
        cases hcp : alookup cur p.1 with
        | some u =>
            cases hcp2 : alookup (cur.map fun kv => if kv.1 = k then (k, v) else kv) p.1 with
            | some u2 => rfl
            | none =>
                exfalso
                have h1 : p.1 ∉ (cur.map fun kv =>
                    if kv.1 = k then (k, v) else kv).map Prod.fst :=
                  (alookup_eq_none_iff _ _).mp hcp2
                rw [hfst] at h1
                exact h1 (List.mem_map.mpr ⟨(p.1, u), alookup_mem _ _ _ hcp, rfl⟩)
        | none =>
            cases hcp2 : alookup (cur.map fun kv => if kv.1 = k then (k, v) else kv) p.1 with
            | none => rfl
            | some u2 =>
                exfalso
                have h1 : p.1 ∉ cur.map Prod.fst := (alookup_eq_none_iff _ _).mp hcp
                have h2 : p.1 ∈ (cur.map fun kv =>
                    if kv.1 = k then (k, v) else kv).map Prod.fst :=
                  List.mem_map.mpr ⟨(p.1, u2), alookup_mem _ _ _ hcp2, rfl⟩
                rw [hfst] at h2
                exact h1 h2
      rw [List.filter_congr hkeys]
      have hconsfilter : ((k, v) :: rest).filter (freshIn cur) = rest.filter (freshIn cur) := by
        rw [List.filter_cons]
        simp [freshIn, hmem]
      rw [hconsfilter]

theorem aupdate_eq_mergeLWW {β : Type} (new : FieldMap β) :
    ∀ cur : FieldMap β, keysND new → keysND cur → aupdate cur new = mergeLWW cur new := by
  induction new with
  | nil =>
      intro cur _ _
      simp only [aupdate, List.foldl_nil, mergeLWW, List.filter_nil, List.append_nil]
      conv_lhs => rw [← List.map_id cur]
      exact List.map_congr_left (fun p _ => by simp [override])
  | cons kv rest ih =>
      intro cur hnew hcur
      obtain ⟨k, v⟩ := kv
      obtain ⟨hknot, hnd'⟩ := List.nodup_cons.mp hnew
      have hrest : alookup rest k = none := (alookup_eq_none_iff rest k).mpr hknot
      have step : aupdate cur ((k, v) :: rest) = aupdate (aset cur k v) rest := rfl
      rw [step, ih (aset cur k v) hnd' (keysND_aset _ _ _ hcur),
        mergeLWW_aset cur rest k v hrest hcur]

theorem combineStep_eq_specStep {β : Type} (result : UpdateDoc β) (opf : String × FieldMap β)
    (hres : ∀ p ∈ result, keysND p.2) (hopf : keysND opf.2) :
    combineStep result opf = specStep result opf := by
  unfold combineStep specStep
  cases hmem : alookup result opf.1 with
  | some cur =>
      have hcur : keysND cur := hres (opf.1, cur) (alookup_mem _ _ _ hmem)
      simp only [hmem, Option.getD_some]
      rw [aupdate_eq_mergeLWW opf.2 cur hopf hcur]
  | none =>
      simp only [hmem, Option.getD_none]
      rw [aupdate_eq_mergeLWW opf.2 [] hopf keysND_nil]
      exact aset_of_not_mem result opf.1 _ hmem

theorem combineStep_inv {β : Type} (result : UpdateDoc β) (opf : String × FieldMap β)
    (hres : ∀ p ∈ result, keysND p.2) (_hopf : keysND opf.2) :
    ∀ p ∈ combineStep result opf, keysND p.2 := by
  intro p hp
  unfold combineStep at hp
  rcases mem_aset _ _ _ p hp with h1 | h2
  · exact hres p h1
  · rw [h2]
    apply keysND_aupdate _ _ _
    cases hmem : alookup result opf.1 with
    | none =>
        simp only [hmem, Option.getD_none]
        exact keysND_nil
    | some cur =>
        simp only [hmem, Option.getD_some]
        exact hres (opf.1, cur) (alookup_mem _ _ _ hmem)

theorem foldl_combineStep_eq {β : Type} (u : UpdateDoc β) :
    ∀ result : UpdateDoc β, (∀ p ∈ result, keysND p.2) → (∀ opf ∈ u, keysND opf.2) →
      u.foldl combineStep result = u.foldl specStep result := by
  induction u with
  | nil => intro result _ _; rfl
  | cons opf rest ih =>
      intro result hres hu
      have h1 : keysND opf.2 := hu opf (List.mem_cons_self _ _)
      have hrest : ∀ q ∈ rest, keysND q.2 := fun q hq => hu q (List.mem_cons_of_mem _ hq)
      rw [List.foldl_cons, List.foldl_cons, ← combineStep_eq_specStep result opf hres h1]
      exact ih (combineStep result opf) (combineStep_inv result opf hres h1) hrest

theorem foldl_combineStep_inv {β : Type} (u : UpdateDoc β) :
    ∀ result : UpdateDoc β, (∀ p ∈ result, keysND p.2) → (∀ opf ∈ u, keysND opf.2) →
      ∀ p ∈ u.foldl combineStep result, keysND p.2 := by
  induction u with
  | nil => intro result hres _; exact hres
  | cons opf rest ih =>
      intro result hres hu
      rw [List.foldl_cons]
      exact ih (combineStep result opf)
        (combineStep_inv result opf hres (hu opf (List.mem_cons_self _ _)))
        (fun q hq => hu q (List.mem_cons_of_mem _ hq))

theorem combine_eq_combineSpec {β : Type} (updates : List (UpdateDoc β))
    (h : ∀ u ∈ updates, ∀ opf ∈ u, keysND opf.2) :
    combine updates = combineSpec updates := by
  unfold combine combineSpec
  suffices haux : ∀ (us : List (UpdateDoc β)) (acc : UpdateDoc β),
      (∀ p ∈ acc, keysND p.2) → (∀ u ∈ us, ∀ opf ∈ u, keysND opf.2) →
      us.foldl (fun result update => update.foldl combineStep result) acc
        = us.foldl (fun result update => update.foldl specStep result) acc by
    exact haux updates [] (fun p hp => absurd hp (List.not_mem_nil p)) h
  intro us
  induction us with
  | nil => intro acc _ _; rfl
  | cons u rest ih =>
      intro acc hacc hus
      have hu : ∀ opf ∈ u, keysND opf.2 := hus u (List.mem_cons_self _ _)
      have hrest : ∀ w ∈ rest, ∀ opf ∈ w, keysND opf.2 :=
        fun w hw => hus w (List.mem_cons_of_mem _ hw)
      simp only [List.foldl_cons]
      rw [← foldl_combineStep_eq u acc hacc hu]
      exact ih (u.foldl combineStep acc) (foldl_combineStep_inv u acc hacc hu) hrest

end UpdateBuilder

theorem rep_mono_hi (h : Heap) (hi hi' : Nat) (hle : hi ≤ hi') :
    ∀ (es : PDict) (ps : UpdateDoc PVal) (lo : Nat),
      DictRep h es ps lo hi → DictRep h es ps lo hi' := by
  intro es
  induction es with
  | nil =>
      intro ps lo hrep
      cases hrep
      exact DictRep.nil _ _
  | cons kv es ih =>
      intro ps lo hrep
      cases hrep with
      | cons k f lo hi fm es ps h1 h2 h3 h4 =>
          exact DictRep.cons k f lo hi' fm es ps h1 (lt_of_lt_of_le h2 hle) h3 (ih ps f h4)

theorem rep_write_outside (h : Heap) (w : Nat) (d : PDict) (hi : Nat) :
    ∀ (es : PDict) (ps : UpdateDoc PVal) (lo : Nat),
      DictRep h es ps lo hi → (w ≤ lo ∨ hi ≤ w) → DictRep (h.write w d) es ps lo hi := by
  intro es
  induction es with
  | nil =>
      intro ps lo hrep _
      cases hrep
      exact DictRep.nil _ _
  | cons kv es ih =>
      intro ps lo hrep hw
      cases hrep with
      | cons k f lo hi fm es ps h1 h2 h3 h4 =>
          have hne : w ≠ f := by
            rcases hw with hw | hw
            · exact fun e => absurd h1 (by rw [← e]; exact not_lt.mpr hw)
            · exact fun e => absurd h2 (by rw [← e]; exact not_lt.mpr hw)
          have hw' : w ≤ f ∨ hi ≤ w := by
            rcases hw with hw | hw
            · exact Or.inl (le_of_lt (lt_of_le_of_lt hw h1))
            · exact Or.inr hw
          refine DictRep.cons k f lo hi fm es ps h1 h2 ?_ (ih ps f h4 hw')
          rw [Heap.read_write_ne h w f d hne]
          exact h3

theorem rep_alloc (h : Heap) (d : PDict) (hi : Nat) (hhi : hi ≤ h.next) :
    ∀ (es : PDict) (ps : UpdateDoc PVal) (lo : Nat),
      DictRep h es ps lo hi → DictRep (h.alloc d).1 es ps lo hi := by
  intro es
  induction es with
  | nil =>
      intro ps lo hrep
      cases hrep
      exact DictRep.nil _ _
  | cons kv es ih =>
      intro ps lo hrep
      cases hrep with
      | cons k f lo hi fm es ps h1 h2 h3 h4 =>
          refine DictRep.cons k f lo hi fm es ps h1 h2 ?_ (ih ps f h4)
          rw [Heap.read_alloc_ne h d f (by omega)]
          exact h3

theorem rep_alookup_some (h : Heap) (hi : Nat) :
    ∀ (es : PDict) (ps : UpdateDoc PVal) (lo : Nat) (op : String) (pv : PVal),
      DictRep h es ps lo hi → alookup es op = some pv →
      ∃ f, pv = .ref f ∧ lo < f ∧ f < hi ∧ alookup ps op = some (h.read f) := by
  intro es
  induction es with
  | nil =>
      intro ps lo op pv _ hl
      simp [alookup] at hl
  | cons kv es ih =>
      intro ps lo op pv hrep hl
      cases hrep with
      | cons k f lo hi fm es ps h1 h2 h3 h4 =>
          rw [alookup_cons] at hl
          by_cases hk : k = op
          · rw [if_pos hk] at hl
            obtain rfl : PVal.ref f = pv := Option.some.inj hl
            refine ⟨f, rfl, h1, h2, ?_⟩
            rw [alookup_cons, if_pos hk, h3]
          · rw [if_neg hk] at hl
            obtain ⟨g, hg, hlo, hhi, hps⟩ := ih ps f op pv h4 hl
            refine ⟨g, hg, lt_trans h1 hlo, hhi, ?_⟩
            rw [alookup_cons, if_neg hk]
            exact hps

theorem rep_alookup_none (h : Heap) (hi : Nat) :
    ∀ (es : PDict) (ps : UpdateDoc PVal) (lo : Nat) (op : String),
      DictRep h es ps lo hi → alookup es op = none → alookup ps op = none := by
  intro es
  induction es with
  | nil =>
      intro ps lo op hrep _
      cases hrep
      rfl
  | cons kv es ih =>
      intro ps lo op hrep hl
      cases hrep with
      | cons k f lo hi fm es ps h1 h2 h3 h4 =>
          rw [alookup_cons] at hl
          by_cases hk : k = op
          · rw [if_pos hk] at hl
            exact absurd hl (by simp)
          · rw [if_neg hk] at hl
            rw [alookup_cons, if_neg hk]
            exact ih ps f op h4 hl

theorem rep_write_at (h : Heap) (hi : Nat) (newfm : FieldMap PVal) :
    ∀ (es : PDict) (ps : UpdateDoc PVal) (lo : Nat) (op : String) (sub : Nat),
      DictRep h es ps lo hi → alookup es op = some (.ref sub) →
      DictRep (h.write sub newfm) es (aset ps op newfm) lo hi := by
  intro es
  induction es with
  | nil =>
      intro ps lo op sub _ hl
      simp [alookup] at hl
  | cons kv es ih =>
      intro ps lo op sub hrep hl
      cases hrep with
      | cons k f lo hi fm es ps h1 h2 h3 h4 =>
          rw [alookup_cons] at hl
          by_cases hk : k = op
          · rw [if_pos hk] at hl
            obtain hf : f = sub := by
              have := Option.some.inj hl
              cases this
              rfl
            subst hf
            subst hk
            rw [aset_cons, if_pos rfl]
            refine DictRep.cons k f lo hi newfm es ps h1 h2 (Heap.read_write_self h f newfm) ?_
            exact rep_write_outside h f newfm hi es ps f h4 (Or.inl (le_refl f))
          · rw [if_neg hk] at hl
            obtain ⟨g, hg, hlo, _, _⟩ := rep_alookup_some h hi es ps f op (.ref sub) h4 hl
            obtain rfl : sub = g := by cases hg; rfl
            rw [aset_cons, if_neg hk]
            refine DictRep.cons k f lo hi fm es (aset ps op newfm) h1 h2 ?_ (ih ps f op sub h4 hl)
            rw [Heap.read_write_ne h sub f newfm (fun e => absurd hlo (by rw [e]; exact lt_irrefl f))]
            exact h3

theorem rep_append (h : Heap) (hi hi' f : Nat) (k : String) (fm : FieldMap PVal)
    (hf1 : hi ≤ f) (hf2 : f < hi') (hread : h.read f = fm) :
    ∀ (es : PDict) (ps : UpdateDoc PVal) (lo : Nat),
      DictRep h es ps lo hi → lo < hi →
      DictRep h (es ++ [(k, PVal.ref f)]) (ps ++ [(k, fm)]) lo hi' := by
  intro es
  induction es with
  | nil =>
      intro ps lo hrep hlo
      cases hrep
      simp only [List.nil_append]
      exact DictRep.cons k f lo hi' fm [] [] (lt_of_lt_of_le hlo hf1) hf2 hread (DictRep.nil f hi')
  | cons kv es ih =>
      intro ps lo hrep hlo
      cases hrep with
      | cons k0 f0 lo hi fm0 es ps h1 h2 h3 h4 =>
          simp only [List.cons_append]
          exact DictRep.cons k0 f0 lo hi' fm0 _ _ h1 (lt_of_lt_of_le h2 (le_of_lt (lt_of_le_of_lt hf1 hf2)))
            h3 (ih ps f0 h4 h2)

theorem rep_read_eq (h : Heap) (hi : Nat) :
    ∀ (es : PDict) (ps : UpdateDoc PVal) (lo : Nat),
      DictRep h es ps lo hi →
      es.map (fun kv => (kv.1, fieldEntries h kv.2)) = ps := by
  intro es
  induction es with
  | nil =>
      intro ps lo hrep
      cases hrep
      rfl
  | cons kv es ih =>
      intro ps lo hrep
      cases hrep with
      | cons k f lo hi fm es ps h1 h2 h3 h4 =>
          simp only [List.map_cons]
          rw [ih ps f h4]
          show (k, fieldEntries h (.ref f)) :: ps = (k, fm) :: ps
          rw [show fieldEntries h (.ref f) = h.read f from rfl, h3]

theorem combineInner_spec (h0 : Heap) (r : Nat) (hr0 : h0.next ≤ r) :
    ∀ (entries : PDict) (h : Heap) (ps : UpdateDoc PVal),
      (∀ a, a < h0.next → h.read a = h0.read a) →
      r < h.next →
      DictRep h (h.read r) ps r h.next →
      (∀ kv ∈ entries, refBelow h0.next kv.2 = true) →
      (∀ a, a < h0.next → (combineInner r h entries).read a = h0.read a)
      ∧ h.next ≤ (combineInner r h entries).next
      ∧ DictRep (combineInner r h entries) ((combineInner r h entries).read r)
          (entries.foldl
            (fun acc kv => UpdateBuilder.combineStep acc (kv.1, fieldEntries h0 kv.2)) ps)
          r (combineInner r h entries).next := by
  intro entries
  induction entries with
  | nil =>
      intro h ps hframe hnext hrep _
      exact ⟨hframe, le_refl _, hrep⟩
  | cons kvf rest ih =>
      intro h ps hframe hnext hrep hwf
      obtain ⟨op, fv⟩ := kvf
      have hfv : refBelow h0.next fv = true := hwf (op, fv) (List.mem_cons_self _ _)
      obtain ⟨b, rfl, hb⟩ : ∃ b, fv = PVal.ref b ∧ b < h0.next := by
        cases fv with
        | ref b => exact ⟨b, rfl, by simpa [refBelow] using hfv⟩
        | imm v => simp [refBelow] at hfv
      have hwrest : ∀ kv ∈ rest, refBelow h0.next kv.2 = true :=
        fun kv hk => hwf kv (List.mem_cons_of_mem _ hk)
      have hEb : h.read b = h0.read b := hframe b hb
      have hunfold : combineInner r h ((op, PVal.ref b) :: rest) =
          match alookup (h.read r) op with
          | some (.ref sub) =>
              combineInner r
                (h.write sub (aupdate (h.read sub) (fieldEntries h (PVal.ref b)))) rest
          | some (.imm _) => combineInner r h rest
          | none =>
              let af := h.alloc []
              let h2 := af.1.write r (aset (af.1.read r) op (.ref af.2))
              combineInner r
                (h2.write af.2 (aupdate (h2.read af.2) (fieldEntries h2 (PVal.ref b)))) rest := rfl
      cases hmem : alookup (h.read r) op with
      | some pv =>
          obtain ⟨sub, rfl, hsub1, hsub2, hps⟩ :=
            rep_alookup_some h h.next (h.read r) ps r op pv hrep hmem
          rw [hunfold, hmem]
          have hframe' : ∀ a, a < h0.next →
              (h.write sub (aupdate (h.read sub) (fieldEntries h (PVal.ref b)))).read a
                = h0.read a := by
            intro a ha
            rw [Heap.read_write_ne h sub a _ (by omega)]
            exact hframe a ha
          have hnext' : r <
              (h.write sub (aupdate (h.read sub) (fieldEntries h (PVal.ref b)))).next := by
            rw [Heap.write_next]
            exact hnext
          have hrep' : DictRep
              (h.write sub (aupdate (h.read sub) (fieldEntries h (PVal.ref b))))
              ((h.write sub (aupdate (h.read sub) (fieldEntries h (PVal.ref b)))).read r)
              (aset ps op (aupdate (h.read sub) (fieldEntries h (PVal.ref b))))
              r (h.write sub (aupdate (h.read sub) (fieldEntries h (PVal.ref b)))).next := by
            rw [Heap.read_write_ne h sub r _ (by omega), Heap.write_next]
            exact rep_write_at h h.next _ (h.read r) ps r op sub hrep hmem
          obtain ⟨f1, f2, f3⟩ := ih
            (h.write sub (aupdate (h.read sub) (fieldEntries h (PVal.ref b))))
            (aset ps op (aupdate (h.read sub) (fieldEntries h (PVal.ref b))))
            hframe' hnext' hrep' hwrest
          refine ⟨f1, ?_, ?_⟩
          · rw [Heap.write_next] at f2
            exact f2
          · simp only [List.foldl_cons]
            have hpure : UpdateBuilder.combineStep ps (op, fieldEntries h0 (PVal.ref b))
                = aset ps op (aupdate (h.read sub) (fieldEntries h (PVal.ref b))) := by
              show aset ps op
                  (aupdate ((alookup ps op).getD []) (fieldEntries h0 (PVal.ref b))) = _
              rw [hps]
              simp only [Option.getD_some]
              rw [show fieldEntries h0 (PVal.ref b) = h0.read b from rfl,
                show fieldEntries h (PVal.ref b) = h.read b from rfl, hEb]
            rw [hpure]
            exact f3
      | none =>
          have hpsnone : alookup ps op = none :=
            rep_alookup_none h h.next (h.read r) ps r op hrep hmem
          rw [hunfold, hmem]
          simp only [Heap.alloc_addr]
          have e1 : (h.alloc []).1.read r = h.read r :=
            Heap.read_alloc_ne h [] r (by omega)
          have e2 : ((h.alloc []).1.write r (aset ((h.alloc []).1.read r) op
              (.ref h.next))).read h.next = [] := by
            rw [Heap.read_write_ne _ r h.next _ (by omega)]
            exact Heap.read_alloc_self h []
          have e4 : ((h.alloc []).1.write r (aset ((h.alloc []).1.read r) op
              (.ref h.next))).read b = h0.read b := by
            rw [Heap.read_write_ne _ r b _ (by omega), Heap.read_alloc_ne h [] b (by omega)]
            exact hEb
          have e5 : fieldEntries ((h.alloc []).1.write r (aset ((h.alloc []).1.read r) op
              (.ref h.next))) (PVal.ref b) = h0.read b := e4
          rw [e5, e2, e1]
          have hreadr3 : (((h.alloc []).1.write r (aset (h.read r) op
              (.ref h.next))).write h.next (aupdate [] (h0.read b))).read r
              = (h.read r) ++ [(op, PVal.ref h.next)] := by
            rw [Heap.read_write_ne _ h.next r _ (by omega), Heap.read_write_self,
              aset_of_not_mem (h.read r) op _ hmem]
          have hframe3 : ∀ a, a < h0.next →
              (((h.alloc []).1.write r (aset (h.read r) op (.ref h.next))).write h.next
                (aupdate [] (h0.read b))).read a = h0.read a := by
            intro a ha
            rw [Heap.read_write_ne _ h.next a _ (by omega),
              Heap.read_write_ne _ r a _ (by omega), Heap.read_alloc_ne h [] a (by omega)]
            exact hframe a ha
          have hnext3 : r < (((h.alloc []).1.write r (aset (h.read r) op
              (.ref h.next))).write h.next (aupdate [] (h0.read b))).next := by
            simp only [Heap.write_next, Heap.alloc_next]
            omega
          have hrep3 : DictRep
              (((h.alloc []).1.write r (aset (h.read r) op (.ref h.next))).write h.next
                (aupdate [] (h0.read b)))
              ((((h.alloc []).1.write r (aset (h.read r) op (.ref h.next))).write h.next
                (aupdate [] (h0.read b))).read r)
              (ps ++ [(op, aupdate [] (h0.read b))])
              r
              ((((h.alloc []).1.write r (aset (h.read r) op (.ref h.next))).write h.next
                (aupdate [] (h0.read b))).next) := by
            rw [hreadr3]
            simp only [Heap.write_next, Heap.alloc_next]
            have s1 : DictRep (h.alloc []).1 (h.read r) ps r h.next :=
              rep_alloc h [] h.next (le_refl _) (h.read r) ps r hrep
            have s2 : DictRep ((h.alloc []).1.write r (aset (h.read r) op (.ref h.next)))
                (h.read r) ps r h.next :=
              rep_write_outside (h.alloc []).1 r _ h.next (h.read r) ps r s1
                (Or.inl (le_refl r))
            have s3 : DictRep (((h.alloc []).1.write r (aset (h.read r) op
                (.ref h.next))).write h.next (aupdate [] (h0.read b)))
                (h.read r) ps r h.next :=
              rep_write_outside _ h.next _ h.next (h.read r) ps r s2 (Or.inr (le_refl _))
            refine rep_append _ h.next (h.next + 1) h.next op (aupdate [] (h0.read b))
              (le_refl _) (Nat.lt_succ_self _) ?_ (h.read r) ps r s3 hnext
            rw [Heap.read_write_self]
          obtain ⟨f1, f2, f3⟩ := ih
            (((h.alloc []).1.write r (aset (h.read r) op (.ref h.next))).write h.next
              (aupdate [] (h0.read b)))
            (ps ++ [(op, aupdate [] (h0.read b))])
            hframe3 hnext3 hrep3 hwrest
          refine ⟨f1, ?_, ?_⟩
          · have : (((h.alloc []).1.write r (aset (h.read r) op (.ref h.next))).write h.next
                (aupdate [] (h0.read b))).next = h.next + 1 := by
              simp only [Heap.write_next, Heap.alloc_next]
            rw [this] at f2
            omega
          · simp only [List.foldl_cons]
            have hpure : UpdateBuilder.combineStep ps (op, fieldEntries h0 (PVal.ref b))
                = ps ++ [(op, aupdate [] (h0.read b))] := by
              show aset ps op
                  (aupdate ((alookup ps op).getD []) (fieldEntries h0 (PVal.ref b)))
                = ps ++ [(op, aupdate [] (h0.read b))]
              rw [hpsnone]
              simp only [Option.getD_none]
              rw [show fieldEntries h0 (PVal.ref b) = h0.read b from rfl]
              exact aset_of_not_mem ps op _ hpsnone
            rw [hpure]
            exact f3

theorem combineFold_spec (h0 : Heap) (r : Nat) (hr0 : h0.next ≤ r) :
    ∀ (us : List Nat) (h : Heap) (ps : UpdateDoc PVal),
      (∀ a, a < h0.next → h.read a = h0.read a) →
      r < h.next →
      DictRep h (h.read r) ps r h.next →
      (∀ u ∈ us, u < h0.next ∧ ∀ kv ∈ h0.read u, refBelow h0.next kv.2 = true) →
      (∀ a, a < h0.next →
          (us.foldl (fun hh u => combineInner r hh (hh.read u)) h).read a = h0.read a)
      ∧ r < (us.foldl (fun hh u => combineInner r hh (hh.read u)) h).next
      ∧ DictRep (us.foldl (fun hh u => combineInner r hh (hh.read u)) h)
          ((us.foldl (fun hh u => combineInner r hh (hh.read u)) h).read r)
          (us.foldl
            (fun acc u => (readUpdateDoc h0 u).foldl UpdateBuilder.combineStep acc) ps)
          r ((us.foldl (fun hh u => combineInner r hh (hh.read u)) h).next) := by
  intro us
  induction us with
  | nil =>
      intro h ps hframe hnext hrep _
      exact ⟨hframe, hnext, hrep⟩
  | cons u us ih =>
      intro h ps hframe hnext hrep hwf
      obtain ⟨hu, hukv⟩ := hwf u (List.mem_cons_self _ _)
      have hwf' : ∀ w ∈ us, w < h0.next ∧ ∀ kv ∈ h0.read w, refBelow h0.next kv.2 = true :=
        fun w hw => hwf w (List.mem_cons_of_mem _ hw)
      have hreadu : h.read u = h0.read u := hframe u hu
      have hentw : ∀ kv ∈ h.read u, refBelow h0.next kv.2 = true := by
        rw [hreadu]
        exact hukv
      obtain ⟨f1, f2, f3⟩ :=
        combineInner_spec h0 r hr0 (h.read u) h ps hframe hnext hrep hentw
      have hpure : (h.read u).foldl
          (fun acc kv => UpdateBuilder.combineStep acc (kv.1, fieldEntries h0 kv.2)) ps
          = (readUpdateDoc h0 u).foldl UpdateBuilder.combineStep ps := by
        rw [readUpdateDoc, List.foldl_map, hreadu]
      rw [hpure] at f3
      simp only [List.foldl_cons]
      exact ih (combineInner r h (h.read u))
        ((readUpdateDoc h0 u).foldl UpdateBuilder.combineStep ps)
        f1 (lt_of_lt_of_le hnext f2) f3 hwf'

theorem combineHeap_spec (h : Heap) (updates : List Nat)
    (hwf : ∀ u ∈ updates, u < h.next ∧ ∀ kv ∈ h.read u, refBelow h.next kv.2 = true) :
    (∀ a, a < h.next → (combineHeap h updates).1.read a = h.read a)
    ∧ (combineHeap h updates).2 = h.next
    ∧ readUpdateDoc (combineHeap h updates).1 (combineHeap h updates).2
        = UpdateBuilder.combine (updates.map (readUpdateDoc h)) := by
  have hstart : DictRep (h.alloc []).1 ((h.alloc []).1.read h.next) [] h.next
      (h.alloc []).1.next := by
    have : (h.alloc []).1.read h.next = [] := Heap.read_alloc_self h []
    rw [this]
    exact DictRep.nil _ _
  obtain ⟨f1, f2, f3⟩ := combineFold_spec h h.next (le_refl _) updates (h.alloc []).1 []
    (fun a ha => Heap.read_alloc_ne h [] a (by omega))
    (by simp)
    hstart hwf
  have hch1 : (combineHeap h updates).1
      = updates.foldl (fun hh u => combineInner h.next hh (hh.read u)) (h.alloc []).1 := by
    simp [combineHeap]
  have hch2 : (combineHeap h updates).2 = h.next := by
    simp [combineHeap]
  refine ⟨?_, hch2, ?_⟩
  · intro a ha
    rw [hch1]
    exact f1 a ha
  · rw [hch1, hch2]
    have hread := rep_read_eq _ _ _ _ _ f3
    rw [readUpdateDoc, hread]
    show updates.foldl
        (fun acc u => (readUpdateDoc h u).foldl UpdateBuilder.combineStep acc) []
      = UpdateBuilder.combine (updates.map (readUpdateDoc h))
    rw [UpdateBuilder.combine, List.foldl_map]

/-- Claim C8: `UpdateBuilder.combine` is pure with respect to its inputs.
In the heap model with Python reference semantics (`combineHeap`), for
every heap and every list of addresses of well-formed update documents:
(1) every pre-existing object — in particular every input document and
every field dict it references — is left unchanged by the call; (2) the
returned mapping is a fresh object, at the previously unallocated address
`h.next`; (3) the value of the result equals the pure `combine` of the
input documents' values; hence (4) two calls whose inputs are equal by
value return results equal by value. -/
theorem combine_is_pure :
    ∀ (h : Heap) (updates : List Nat),
      (∀ u ∈ updates, u < h.next ∧ ∀ kv ∈ h.read u, refBelow h.next kv.2 = true) →
      (∀ a, a < h.next → (combineHeap h updates).1.read a = h.read a)
      ∧ (combineHeap h updates).2 = h.next
      ∧ readUpdateDoc (combineHeap h updates).1 (combineHeap h updates).2
          = UpdateBuilder.combine (updates.map (readUpdateDoc h))
      ∧ ∀ (h2 : Heap) (updates2 : List Nat),
          (∀ u ∈ updates2, u < h2.next ∧ ∀ kv ∈ h2.read u, refBelow h2.next kv.2 = true) →
          updates2.map (readUpdateDoc h2) = updates.map (readUpdateDoc h) →
          readUpdateDoc (combineHeap h2 updates2).1 (combineHeap h2 updates2).2
            = readUpdateDoc (combineHeap h updates).1 (combineHeap h updates).2 := by
  intro h updates hwf
  obtain ⟨f1, f2, f3⟩ := combineHeap_spec h updates hwf
  refine ⟨f1, f2, f3, ?_⟩
  intro h2 updates2 hwf2 heq
  rw [(combineHeap_spec h2 updates2 hwf2).2.2, f3, heq]

/-- Claim C3 counterexample: in `Collection.find` the caller explicitly
supplies `projection={}` (an explicitly provided value), yet the
`projection` key is absent from the request body, because the source
guards the option with Python truthiness (`if projection:`) and the empty
dict is falsy.  This refutes "present if and only if the caller explicitly
provided a value". -/
theorem findBody_empty_projection_omitted :
    alookup (Collection.findBody (.obj [("a", .int 1)]) (.obj []) .null .null .null)
      "projection" = none := rfl

/-- Claim C3 (amended): in the `Collection.find` request body, the
`projection` and `sort` keys are present exactly when the provided value
is truthy (so an explicitly provided empty dict is omitted, like an
omitted argument), while `skip` and `limit` are present exactly when the
provided value is not `None` (so an explicit `0` is sent); a present key
carries exactly the provided value, and `filter` is always present. -/
theorem findBody_option_keys
    (filter projection sortSpec skip limit : JVal) :
    (alookup (Collection.findBody filter projection sortSpec skip limit) "projection"
        = if truthy projection then some projection else none)
    ∧ (alookup (Collection.findBody filter projection sortSpec skip limit) "sort"
        = if truthy sortSpec then some sortSpec else none)
    ∧ (alookup (Collection.findBody filter projection sortSpec skip limit) "skip"
        = if isNone skip then none else some skip)
    ∧ (alookup (Collection.findBody filter projection sortSpec skip limit) "limit"
        = if isNone limit then none else some limit)
    ∧ (alookup (Collection.findBody filter projection sortSpec skip limit) "filter"
        = some (if truthy filter then filter else .obj [])) := by
  unfold Collection.findBody
  by_cases h1 : truthy projection = true <;>
    by_cases h2 : truthy sortSpec = true <;>
      by_cases h3 : isNone skip = true <;>
        by_cases h4 : isNone limit = true <;>
          simp [h1, h2, h3, h4, aset, alookup]

/-- Claim C4 counterexample: `Query.size` with a string operand and
`Query.in_` with an integer operand both "succeed" and embed the
incompatible operand verbatim in the wire shape — no local validation
error of any kind is raised before the network call, refuting the claim
that construction fails immediately with a validation error. -/
theorem size_accepts_incompatible_operand :
    Query.size "tags" (.str "three") = .obj [("tags", .obj [("$size", .str "three")])]
    ∧ Query.in_ "role" (.int 5) = .obj [("role", .obj [("$in", .int 5)])] :=
  ⟨rfl, rfl⟩

/-- Claim C4 (amended): the expression constructors perform no operand
validation at all: whatever value is passed to `size`, `in_`, `nin`,
`all_` or `not_` — compatible with the operator or not — is accepted
without error and embedded verbatim in the single-key wire shape, never
coerced.  (Only the one-operand arity of `not_` is fixed, by the Python
function signature itself.) -/
theorem constructors_embed_operands_verbatim
    (field : String) (v : JVal) :
    Query.size field v = .obj [(field, .obj [("$size", v)])]
    ∧ Query.in_ field v = .obj [(field, .obj [("$in", v)])]
    ∧ Query.nin field v = .obj [(field, .obj [("$nin", v)])]
    ∧ Query.all_ field v = .obj [(field, .obj [("$all", v)])]
    ∧ Query.not_ v = .obj [("$not", v)] :=
  ⟨rfl, rfl, rfl, rfl, rfl⟩

/-- Witness for `constructors_embed_operands_verbatim` at a concrete
incompatible operand. -/
theorem constructors_embed_operands_verbatim_witness :
    Query.size "tags" (.str "three") = .obj [("tags", .obj [("$size", .str "three")])] :=
  (constructors_embed_operands_verbatim "tags" (.str "three")).1

/-- Claim C5: `Aggregation.count()` serializes to the empty-object
accumulator `{"$count": {}}` — not the literal `1` and not
`{"$sum": 1}` — and `Aggregation.group("$city", {"n": count()})`
serializes to `{"$group": {"_id": "$city", "n": {"$count": {}}}}` with
`_id` the literal string `"$city"`. -/
theorem count_and_group_serialization :
    Aggregation.count = .obj [("$count", .obj [])]
    ∧ Aggregation.count ≠ .int 1
    ∧ Aggregation.count ≠ .obj [("$sum", .int 1)]
    ∧ Aggregation.group (.str "$city") [("n", Aggregation.count)]
        = .obj [("$group", .obj [("_id", .str "$city"), ("n", .obj [("$count", .obj [])])])] := by
  refine ⟨rfl, ?_, ?_, rfl⟩ <;> simp [Aggregation.count]

/-- Claim C6: `Collection.aggregate` sends the body `{"pipeline": p}` with
the stage list exactly as given, in the given order, unmodified; in
particular a concrete `[match, group, sort]` pipeline serializes as that
3-element sequence in that order. -/
theorem aggregate_preserves_pipeline :
    (∀ p : List JVal, Collection.aggregateBody p = [("pipeline", .arr p)])
    ∧ (∀ p : List JVal, alookup (Collection.aggregateBody p) "pipeline" = some (.arr p))
    ∧ Collection.aggregateBody
        [Aggregation.matchStage (.obj [("age", .obj [("$gte", .int 18)])]),
         Aggregation.group (.str "$city") [("n", Aggregation.count)],
         Aggregation.sort (.obj [("n", .int (-1))])]
      = [("pipeline", .arr
          [.obj [("$match", .obj [("age", .obj [("$gte", .int 18)])])],
           .obj [("$group", .obj [("_id", .str "$city"), ("n", .obj [("$count", .obj [])])])],
           .obj [("$sort", .obj [("n", .int (-1))])]])] :=
  ⟨fun _ => rfl, fun _ => rfl, rfl⟩

/-- Claim C10: when the accumulator mapping itself contains an `_id` key,
`Aggregation.group(g, A)` builds `{"_id": g}` and then `update`s it with
`A`, so the serialized stage's `_id` is `A`'s value, silently replacing
the caller-supplied group key (which is lost whenever it differs). -/
theorem group_id_overwritten_by_accumulator
    (g : JVal) (accs : List (String × JVal)) (v : JVal)
    (hnd : keysND accs) (h : alookup accs "_id" = some v) :
    ∃ S, Aggregation.group g accs = .obj [("$group", .obj S)]
      ∧ alookup S "_id" = some v
      ∧ (v ≠ g → alookup S "_id" ≠ some g) := by
  refine ⟨aupdate [("_id", g)] accs, rfl, alookup_aupdate_of_some _ _ _ _ hnd h, ?_⟩
  intro hvg hcontra
  rw [alookup_aupdate_of_some _ _ _ _ hnd h] at hcontra
  exact hvg (Option.some.inj hcontra)

/-- Witness for `group_id_overwritten_by_accumulator`: grouping by
`"$city"` with an accumulator map that binds `_id` to `"$other"`. -/
theorem group_id_overwritten_by_accumulator_witness :
    ∃ S, Aggregation.group (.str "$city") [("_id", .str "$other")]
        = .obj [("$group", .obj S)]
      ∧ alookup S "_id" = some (.str "$other")
      ∧ (JVal.str "$other" ≠ .str "$city" → alookup S "_id" ≠ some (.str "$city")) :=
  group_id_overwritten_by_accumulator (.str "$city") [("_id", .str "$other")]
    (.str "$other") (by decide) rfl

/-- Claim C1 counterexample, three concrete requests refuting the claim as
stated: (i) a 300-status response with a parsed `ok: true` body succeeds —
`raise_for_status` only raises for 4xx/5xx, so "non-2xx status" does not
imply a transport error; (ii) a body whose `message` field is present but
empty is skipped by the truthy `or`-chain, so the ValueError carries the
`error` field instead of the present `message` field; (iii) a parsed
non-object body raises `AttributeError` from `data.get`, not the
API-level ValueError. -/
theorem request_classification_counterexample :
    Client.request (.response 300 "redirect" (.parsed (.obj [("ok", .bool true)])))
      = .ok (.obj [("ok", .bool true)])
    ∧ Client.request (.response 200 "" (.parsed
        (.obj [("ok", .bool false), ("message", .str ""), ("error", .str "boom")])))
      = .error (.valueError "LauraDB API error: boom")
    ∧ Client.request (.response 200 "" (.parsed (.arr [])))
      = .error (.attributeError "\x27list\x27 object has no attribute \x27get\x27") :=
  ⟨rfl, rfl, rfl⟩

/-- Claim C1 (amended): `Client._request` classifies each single-attempt
outcome as follows — a send failure (connection refusal, timeout), a 4xx
or 5xx status, or an unparsable body each raise the transport-level
`RuntimeError` carrying the underlying failure message, and never the
API-level error; a parsed JSON object body with a falsy-or-absent `ok`
flag raises the API-level `ValueError`, and never the transport-level
one, with the message taken from the body's `message` field if present
and truthy, else its `error` field if present and truthy, else the
generic fallback string; a parsed JSON object body with truthy `ok` is
returned; a parsed non-object body raises `AttributeError`. -/
theorem request_error_classification :
    (∀ msg, Client.request (.failure msg)
        = .error (.runtimeError ("HTTP request failed: " ++ msg)))
    ∧ (∀ status statusMsg body, 400 ≤ status → status < 600 →
        Client.request (.response status statusMsg body)
          = .error (.runtimeError ("HTTP request failed: " ++ statusMsg)))
    ∧ (∀ status statusMsg msg, ¬(400 ≤ status ∧ status < 600) →
        Client.request (.response status statusMsg (.malformed msg))
          = .error (.runtimeError ("HTTP request failed: " ++ msg)))
    ∧ (∀ status statusMsg m, ¬(400 ≤ status ∧ status < 600) →
        truthy ((alookup m "ok").getD (.bool false)) = true →
        Client.request (.response status statusMsg (.parsed (.obj m))) = .ok (.obj m))
    ∧ (∀ status statusMsg m, ¬(400 ≤ status ∧ status < 600) →
        truthy ((alookup m "ok").getD (.bool false)) = false →
        Client.request (.response status statusMsg (.parsed (.obj m)))
          = .error (.valueError ("LauraDB API error: " ++ apiErrorMessage m)))
    ∧ (∀ status statusMsg data, ¬(400 ≤ status ∧ status < 600) →
        (∀ m, data ≠ JVal.obj m) →
        Client.request (.response status statusMsg (.parsed data))
          = .error (.attributeError
              ("\x27" ++ pyTypeName data ++ "\x27 object has no attribute \x27get\x27")))
    ∧ (∀ m, truthy ((alookup m "message").getD .null) = true →
        apiErrorMessage m = pyStr ((alookup m "message").getD .null))
    ∧ (∀ m, truthy ((alookup m "message").getD .null) = false →
        truthy ((alookup m "error").getD .null) = true →
        apiErrorMessage m = pyStr ((alookup m "error").getD .null))
    ∧ (∀ m, truthy ((alookup m "message").getD .null) = false →
        truthy ((alookup m "error").getD .null) = false →
        apiErrorMessage m = "API request failed") := by
  refine ⟨fun msg => rfl, ?_, ?_, ?_, ?_, ?_, ?_, ?_, ?_⟩
  · intro status statusMsg body h1 h2
    simp [Client.request, h1, h2]
  · intro status statusMsg msg h
    simp [Client.request, h]
  · intro status statusMsg m h ht
    simp [Client.request, h, ht]
  · intro status statusMsg m h ht
    simp [Client.request, h, ht]
  · intro status statusMsg data h hd
    cases data with
    | obj m => exact absurd rfl (hd m)
    | null => simp [Client.request, h]
    | bool b => simp [Client.request, h]
    | int n => simp [Client.request, h]
    | str s => simp [Client.request, h]
    | arr xs => simp [Client.request, h]
  · intro m hm
    simp [apiErrorMessage, hm]
  · intro m hm he
    simp [apiErrorMessage, hm, he]
  · intro m hm he
    simp [apiErrorMessage, hm, he]

/-- Witness for `request_error_classification`: a 404 response raises the
transport-level error; a 200 `ok: false` body with message
`"duplicate key"` raises the API-level error carrying exactly that
message. -/
theorem request_error_classification_witness :
    Client.request (.response 404 "404 Client Error" (.parsed (.obj [])))
      = .error (.runtimeError "HTTP request failed: 404 Client Error")
    ∧ Client.request (.response 200 "OK" (.parsed
        (.obj [("ok", .bool false), ("message", .str "duplicate key")])))
      = .error (.valueError "LauraDB API error: duplicate key") := by
  constructor
  · exact (request_error_classification.2.1 404 "404 Client Error"
      (.parsed (.obj [])) (by omega) (by omega)).trans rfl
  · exact (request_error_classification.2.2.2.2.1 200 "OK"
      [("ok", .bool false), ("message", .str "duplicate key")] (by omega) rfl).trans rfl

/-- Claim C9: `Client.ping` is a total boolean report — it never lets an
exception escape (the embedding returns a value for every outcome, with
the bare `except Exception` modelled by mapping every error from
`_request` to `False`); it returns `True` exactly when the server's reply
got through with an `ok` flag equal to `true`, and returns `False` on
every failure of any kind. -/
theorem ping_swallows_errors :
    (∀ o m, Client.request o = .ok (.obj m) →
        Client.ping o = (alookup m "ok").getD (.bool false))
    ∧ (∀ o e, Client.request o = .error e → Client.ping o = .bool false)
    ∧ (∀ o, Client.ping o = .bool true ↔
        ∃ m, Client.request o = .ok (.obj m)
          ∧ (alookup m "ok").getD (.bool false) = .bool true) := by
  refine ⟨?_, ?_, ?_⟩
  · intro o m h
    simp [Client.ping, h]
  · intro o e h
    simp [Client.ping, h]
  · intro o
    unfold Client.ping
    cases hreq : Client.request o with
    | error e => simp [hreq]
    | ok data => cases data <;> simp [hreq]

/-- Witness for `ping_swallows_errors`: a connection refusal yields
`False`. -/
theorem ping_swallows_errors_witness :
    Client.ping (.failure "connection refused") = .bool false :=
  ping_swallows_errors.2.1 (.failure "connection refused")
    (.runtimeError ("HTTP request failed: " ++ "connection refused")) rfl

/-- Claim C7: on a successful response whose result object lacks the
expected nested field — or lacks the `result` object altogether — the
facade operations return the empty/zero default instead of failing:
`count` returns `0` without `"count"`, `update_many` returns `0` without
`"modified"`, `find` returns `[]` without `"documents"`, and `insert_one`
returns `""` without `"id"`. -/
theorem facade_missing_field_defaults :
    (∀ o m r, Client.request o = .ok (.obj m) → alookup m "result" = some (.obj r) →
        alookup r "count" = none → Collection.count o = .ok (.int 0))
    ∧ (∀ o m, Client.request o = .ok (.obj m) → alookup m "result" = none →
        Collection.count o = .ok (.int 0))
    ∧ (∀ o m r, Client.request o = .ok (.obj m) → alookup m "result" = some (.obj r) →
        alookup r "modified" = none → Collection.updateMany o = .ok (.int 0))
    ∧ (∀ o m, Client.request o = .ok (.obj m) → alookup m "result" = none →
        Collection.updateMany o = .ok (.int 0))
    ∧ (∀ o m r, Client.request o = .ok (.obj m) → alookup m "result" = some (.obj r) →
        alookup r "documents" = none → Collection.find o = .ok (.arr []))
    ∧ (∀ o m, Client.request o = .ok (.obj m) → alookup m "result" = none →
        Collection.find o = .ok (.arr []))
    ∧ (∀ o m r, Client.request o = .ok (.obj m) → alookup m "result" = some (.obj r) →
        alookup r "id" = none → Collection.insertOne o = .ok (.str ""))
    ∧ (∀ o m, Client.request o = .ok (.obj m) → alookup m "result" = none →
        Collection.insertOne o = .ok (.str "")) := by
  refine ⟨?_, ?_, ?_, ?_, ?_, ?_, ?_, ?_⟩ <;> intro o m
  case _ => intro r h1 h2 h3; simp [Collection.count, h1, pyGet, h2, h3, Bind.bind, Except.bind]
  case _ => intro h1 h2; simp [Collection.count, h1, pyGet, h2, Bind.bind, Except.bind]
  case _ => intro r h1 h2 h3; simp [Collection.updateMany, h1, pyGet, h2, h3, Bind.bind, Except.bind]
  case _ => intro h1 h2; simp [Collection.updateMany, h1, pyGet, h2, Bind.bind, Except.bind]
  case _ => intro r h1 h2 h3; simp [Collection.find, h1, pyGet, h2, h3, Bind.bind, Except.bind]
  case _ => intro h1 h2; simp [Collection.find, h1, pyGet, h2, Bind.bind, Except.bind]
  case _ => intro r h1 h2 h3; simp [Collection.insertOne, h1, pyGet, h2, h3, Bind.bind, Except.bind]
  case _ => intro h1 h2; simp [Collection.insertOne, h1, pyGet, h2, Bind.bind, Except.bind]

/-- Witness for `facade_missing_field_defaults`: a successful `ok: true`
response with an empty result object makes `count` return `0` and `find`
return `[]`. -/
theorem facade_missing_field_defaults_witness :
    Collection.count (.response 200 "OK" (.parsed
        (.obj [("ok", .bool true), ("result", .obj [])]))) = .ok (.int 0)
    ∧ Collection.find (.response 200 "OK" (.parsed
        (.obj [("ok", .bool true)]))) = .ok (.arr []) :=
  ⟨facade_missing_field_defaults.1 _ [("ok", .bool true), ("result", .obj [])] [] rfl rfl rfl,
   facade_missing_field_defaults.2.2.2.2.2.1 _ [("ok", .bool true)] rfl rfl⟩

/-- Claim C2: `UpdateBuilder.combine` computes exactly the composition the
spec describes — starting from an empty result and, for each input update
in order and each of its top-level operator keys, merging that operator's
field-to-value sub-mapping into the result's sub-mapping for that
operator (operators accumulate side by side, the later value winning when
the same field recurs under the same operator), stated as equality with
the independently written spec-side composer `combineSpec` for every
input whose field maps are well-formed Python dicts (distinct keys),
together with the spec's three concrete examples. -/
theorem combine_meets_spec :
    (∀ updates : List (UpdateDoc JVal),
        (∀ u ∈ updates, ∀ opf ∈ u, keysND opf.2) →
        UpdateBuilder.combine updates = UpdateBuilder.combineSpec updates)
    ∧ UpdateBuilder.combine [UpdateBuilder.set "a" (.int 1), UpdateBuilder.set "b" (.int 2)]
        = [("$set", [("a", .int 1), ("b", .int 2)])]
    ∧ UpdateBuilder.combine [UpdateBuilder.set "a" (.int 1), UpdateBuilder.inc "b" (.int 2)]
        = [("$set", [("a", .int 1)]), ("$inc", [("b", .int 2)])]
    ∧ UpdateBuilder.combine [UpdateBuilder.set "x" (.int 1), UpdateBuilder.set "x" (.int 9)]
        = [("$set", [("x", .int 9)])] :=
  ⟨fun updates h => UpdateBuilder.combine_eq_combineSpec updates h, rfl, rfl, rfl⟩

/-- Witness for `combine_meets_spec` at a concrete two-update input. -/
theorem combine_meets_spec_witness :
    (∀ u ∈ [UpdateBuilder.set "a" (JVal.int 1), UpdateBuilder.inc "b" (JVal.int 2)],
        ∀ opf ∈ u, keysND opf.2)
    ∧ UpdateBuilder.combine [UpdateBuilder.set "a" (JVal.int 1), UpdateBuilder.inc "b" (JVal.int 2)]
        = UpdateBuilder.combineSpec
            [UpdateBuilder.set "a" (JVal.int 1), UpdateBuilder.inc "b" (JVal.int 2)] :=
  ⟨by decide, combine_meets_spec.1 _ (by decide)⟩

/-- Witness for `combine_is_pure` on `demoHeap`: the input field dict at
address 0 is untouched, the result is the fresh address 3, and its value
is the pure combine of the input document's value. -/
theorem combine_is_pure_witness :
    ((combineHeap demoHeap [2]).1.read 0 = demoHeap.read 0)
    ∧ (combineHeap demoHeap [2]).2 = demoHeap.next
    ∧ readUpdateDoc (combineHeap demoHeap [2]).1 (combineHeap demoHeap [2]).2
        = UpdateBuilder.combine ([2].map (readUpdateDoc demoHeap)) := by
  obtain ⟨f1, f2, f3, _⟩ := combine_is_pure demoHeap [2] (by decide)
  exact ⟨f1 0 (by decide), f2, f3⟩
